import Mathlib

/-!
# DOCX to PDF conversion server: upload, convert and download handlers

A shallow embedding of `main.go`: the two request handlers `convertHandler`
and `downloadHandler`, the conversion adapter `convertDocxToPdf`, and the
parts of Go's standard library they call (`strings`, `path/filepath`,
`time.Format`, `fmt.Sprintf`, `net/http`, `os`).

Go strings are modelled as lists of Unicode code points, that is, as valid
UTF-8 text. On such text the byte-wise searches of the Go library for the
ASCII bytes `.` and `/` and for ASCII substrings coincide with the
character-wise searches used here.

The file system, the clock and the conversion engine are the environment of
a handler: their answers are read from an `Env` record, and every call a
handler makes to them is recorded, in order, in a trace of `Effect`s.
-/

namespace DocxPdf

/-- A Go string, as its sequence of code points. -/
abbrev GoString := List Char

/-! ## Package `strings` -/

namespace strings

/-- Go `strings.HasPrefix`: `len(s) >= len(p) && s[:len(p)] == p`. -/
def HasPrefix (s p : GoString) : Bool :=
  decide (p.length ≤ s.length) && decide (s.take p.length = p)

/-- Go `strings.HasSuffix`: `len(s) >= len(suf) && s[len(s)-len(suf):] == suf`. -/
def HasSuffix (s suf : GoString) : Bool :=
  decide (suf.length ≤ s.length) && decide (s.drop (s.length - suf.length) = suf)

/-- Go `strings.TrimPrefix`: `s` without the leading `p`, or `s` itself. -/
def TrimPrefix (s p : GoString) : GoString :=
  if HasPrefix s p then s.drop p.length else s

/-- Go `strings.TrimSuffix`: `s` without the trailing `suf`, or `s` itself. -/
def TrimSuffix (s suf : GoString) : GoString :=
  if HasSuffix s suf then s.take (s.length - suf.length) else s

/-- Go `strings.Contains`: `Index(s, substr) >= 0`, a left-to-right search for
the first position at which `substr` starts. -/
def Contains : GoString → GoString → Bool
  | [], substr => HasPrefix [] substr
  | c :: rest, substr => HasPrefix (c :: rest) substr || Contains rest substr

/-- Go `strings.Join`: the elements separated by `sep`. -/
def Join : List GoString → GoString → GoString
  | [], _ => []
  | [e], _ => e
  | e :: rest, sep => e ++ sep ++ Join rest sep

end strings

/-! ## Package `unicode` -/

namespace unicode

/-- Go `unicode.ToLower`. ASCII is handled inline (`A`-`Z` are shifted by 32,
everything else is fixed); any other code point is looked up in the case table
`unicode.CaseRanges`, which is not part of this repository and is the
parameter `caseTable`. -/
def ToLower (caseTable : Char → Char) (r : Char) : Char :=
  if r.toNat < 128 then
    if 'A'.toNat ≤ r.toNat ∧ r.toNat ≤ 'Z'.toNat then Char.ofNat (r.toNat + 32) else r
  else caseTable r

/-- What the proofs use of Go's case table: a code point above U+007F has a
lower case above U+007F, except for U+0130 (lower case `i`) and U+212A, the
Kelvin sign (lower case `k`). -/
def CaseTableASCII (caseTable : Char → Char) : Prop :=
  ∀ r : Char, 128 ≤ r.toNat → 128 ≤ (caseTable r).toNat ∨ caseTable r = 'i' ∨ caseTable r = 'k'

end unicode

namespace strings

/-- Go `strings.ToLower`: every code point mapped through `unicode.ToLower`
(the ASCII fast path of the library computes the same string). -/
def ToLower (caseTable : Char → Char) (s : GoString) : GoString :=
  s.map (unicode.ToLower caseTable)

end strings

/-! ## Package `path/filepath` (Unix) -/

namespace filepath

/-- The loop of Go `filepath.Ext`, run over the reversed path: walk back from
the end until a separator, returning the suffix that starts at the first dot
met. `acc` is the part of the path already walked over. -/
def extLoop : List Char → GoString → GoString
  | [], _ => []
  | c :: rest, acc =>
    if c = '/' then []
    else if c = '.' then c :: acc
    else extLoop rest (c :: acc)

/-- Go `filepath.Ext`: the suffix beginning at the final dot in the final
element of `path`; empty if there is no dot. -/
def Ext (path : GoString) : GoString := extLoop path.reverse []

/-- The inner loop of the `..` case of `Clean`: starting from write index `w`,
step back while `w > dotdot` and the buffer holds no separator at `w`. -/
def backtrack (out : GoString) (dotdot : Nat) : Nat → Nat
  | 0 => 0
  | w + 1 =>
    if dotdot < w + 1 ∧ out.get? (w + 1) ≠ some '/' then backtrack out dotdot w else w + 1

/-- The main loop of Go `filepath.Clean`. `path` is the unread rest of the
input, `out` the buffer written so far (`out.w` is its length), `dotdot` the
index where `..` must stop. Every iteration reads at least one character, so
`fuel = len(path)` iterations suffice. -/
def cleanLoop (rooted : Bool) : Nat → GoString → GoString → Nat → GoString
  | 0, _, out, _ => out
  | _ + 1, [], out, _ => out
  | fuel + 1, c :: rest, out, dotdot =>
    if c = '/' then
      -- empty path element
      cleanLoop rooted fuel rest out dotdot
    else if c = '.' ∧ (rest = [] ∨ rest.head? = some '/') then
      -- . element
      cleanLoop rooted fuel rest out dotdot
    else if c = '.' ∧ rest.head? = some '.' ∧
        (rest.tail = [] ∨ rest.tail.head? = some '/') then
      -- .. element: remove to last separator
      if dotdot < out.length then
        cleanLoop rooted fuel rest.tail
          (out.take (backtrack out dotdot (out.length - 1))) dotdot
      else if !rooted then
        let out1 := (if 0 < out.length then out ++ ['/'] else out) ++ ['.', '.']
        cleanLoop rooted fuel rest.tail out1 out1.length
      else
        cleanLoop rooted fuel rest.tail out dotdot
    else
      -- real path element: add slash if needed, then copy the element
      let out1 :=
        if (rooted ∧ out.length ≠ 1) ∨ (¬ rooted ∧ out.length ≠ 0) then out ++ ['/'] else out
      cleanLoop rooted fuel ((c :: rest).dropWhile (fun x => x ≠ '/'))
        (out1 ++ (c :: rest).takeWhile (fun x => x ≠ '/')) dotdot

/-- Go `filepath.Clean` on Unix (no volume name, separator `/`). -/
def Clean (path : GoString) : GoString :=
  match path with
  | [] => ['.']
  | c :: _ =>
    let rooted : Bool := c = '/'
    let out :=
      if rooted then cleanLoop rooted path.length path.tail ['/'] 1
      else cleanLoop rooted path.length path [] 0
    if out.length = 0 then ['.'] else out

/-- Go `filepath.Join` on Unix: from the first non-empty element on, the
elements are joined with the separator and the result is cleaned. -/
def Join : List GoString → GoString
  | [] => []
  | e :: rest => if e ≠ [] then Clean (strings.Join (e :: rest) ['/']) else Join rest

end filepath

/-! ## Package `time` -/

namespace time

/-- A wall-clock reading, as the calendar fields `Time.Format` prints, and the
nanosecond within the second, which the layout used here does not print. -/
structure Time where
  year : Int
  month : Nat
  day : Nat
  hour : Nat
  minute : Nat
  second : Nat
  nanosecond : Nat
  deriving DecidableEq, Repr

/-- The ranges of the calendar fields of a `Time`. -/
def Time.valid (t : Time) : Prop :=
  1 ≤ t.month ∧ t.month ≤ 12 ∧ 1 ≤ t.day ∧ t.day ≤ 31 ∧
  t.hour < 24 ∧ t.minute < 60 ∧ t.second < 60 ∧ t.nanosecond < 1000000000

instance (t : Time) : Decidable t.valid := by
  unfold Time.valid; infer_instance

/-- The decimal digit `'0' + u`. -/
def utod (u : Nat) : Char := Char.ofNat ('0'.toNat + u)

/-- Go `time.appendInt`: the decimal form of `x`, zero-padded to `width`, with
a leading minus sign for a negative `x`. The two fast paths of the library
(two and four digits) are kept. -/
def appendInt (b : GoString) (x : Int) (width : Nat) : GoString :=
  let u : Nat := x.natAbs
  let b1 := if x < 0 then b ++ ['-'] else b
  if width = 2 ∧ u < 100 then
    b1 ++ [utod (u / 10), utod (u % 10)]
  else if width = 4 ∧ u < 10000 then
    b1 ++ [utod (u / 1000), utod (u / 100 % 10), utod (u / 10 % 10), utod (u % 10)]
  else
    let digits := Nat.toDigits 10 u
    b1 ++ List.replicate (width - digits.length) '0' ++ digits

/-- The chunks `time.nextStdChunk` cuts the layout `20060102_150405` into:
`2006`, `01`, `02`, the literal `_` (it is not followed by `2`), `15`, `04`,
`05`. -/
inductive Chunk
  | stdLongYear
  | stdZeroMonth
  | stdZeroDay
  | stdHour
  | stdZeroMinute
  | stdZeroSecond
  | literal (s : GoString)
  deriving DecidableEq, Repr

/-- The layout string `"20060102_150405"` of `convertHandler`, chunked. -/
def layout20060102_150405 : List Chunk :=
  [.stdLongYear, .stdZeroMonth, .stdZeroDay, .literal ['_'],
   .stdHour, .stdZeroMinute, .stdZeroSecond]

/-- One step of Go `Time.appendFormat`: print a chunk of the layout. -/
def appendChunk (t : Time) (b : GoString) : Chunk → GoString
  | .stdLongYear => appendInt b t.year 4
  | .stdZeroMonth => appendInt b t.month 2
  | .stdZeroDay => appendInt b t.day 2
  | .stdHour => appendInt b t.hour 2
  | .stdZeroMinute => appendInt b t.minute 2
  | .stdZeroSecond => appendInt b t.second 2
  | .literal s => b ++ s

/-- Go `Time.Format` for a chunked layout. -/
def Time.Format (t : Time) (layout : List Chunk) : GoString :=
  layout.foldl (appendChunk t) []

end time

/-! ## Packages `mime/multipart`, `net/http`, `os` and the conversion engine -/

/-- Go `len(s)`: the number of bytes of the UTF-8 encoding of `s`. -/
def byteLen (s : GoString) : Nat := (s.map Char.utf8Size).sum

/-- One part of a multipart request body, as `multipart.Reader.nextPart` hands
it to the form reader: `FormName` and `FileName` are the results of
`p.FormName()` and `p.FileName()`, `Header` is the MIME header of the part
(keys, each with its values), `Size` the number of bytes of its content. -/
structure Part where
  FormName : GoString
  FileName : GoString
  Header : List (GoString × List GoString)
  Size : Nat
  deriving DecidableEq, Repr

/-- The body of a request: either not readable as `multipart/form-data`, or
its sequence of parts. -/
inductive RequestBody
  | malformed
  | multipart (parts : List Part)
  deriving DecidableEq, Repr

/-- Go `multipart.FileHeader`: the file name and size of an uploaded file, and
whether the form reader stored its content in a temporary file on disk. -/
structure FileHeader where
  Filename : GoString
  Size : Nat
  tmpfile : Bool
  deriving DecidableEq, Repr

/-- Go `multipart.Form`, restricted to its file parts, keyed by form field. -/
structure Form where
  File : List (GoString × FileHeader)
  deriving DecidableEq, Repr

/-- Go `http.Request`, restricted to what the handlers read. -/
structure Request where
  Method : GoString
  Path : GoString
  Body : RequestBody
  deriving DecidableEq, Repr

/-- The error `multipart.ErrMessageTooLarge`. -/
def ErrMessageTooLarge : GoString := "multipart: message too large".toList

/-- Go `multipart.mimeHeaderSize`: 400 bytes, and for every key its length, 200
bytes of map entry overhead and the lengths of its values. -/
def mimeHeaderSize (h : List (GoString × List GoString)) : Int :=
  h.foldl (fun size kv => size + byteLen kv.1 + 200 + ((kv.2.map byteLen).sum : Nat)) 400

/-- The loop of Go `multipart.Reader.readForm` over the parts of the body.
`maxParts` bounds the number of parts, `maxFileMemoryBytes` is the file content
that may still be kept in memory, `maxMemoryBytes` the memory that may still be
used for file content held in memory, values, names, headers and map entries.

Every part costs one of `maxParts`; a part without form name is skipped. A
named part is charged its name and 200 bytes. Without file name it is a value:
it is read into memory and charged its size. With a file name it is a file: it
is charged its header, 200 and 100 bytes; if its content exceeds
`maxFileMemoryBytes` it is written, whole, to a temporary file and charged
nothing more, otherwise it stays in memory and is charged to both budgets.
Whenever `maxMemoryBytes` is checked and found negative the result is
`ErrMessageTooLarge`. The size of a file is never by itself a reason to
fail. -/
def readForm :
    Nat → Int → Int → List Part → Except GoString (List (GoString × FileHeader))
  | _, _, _, [] => .ok []
  | maxParts, maxFileMemoryBytes, maxMemoryBytes, p :: ps =>
    if maxParts = 0 then .error ErrMessageTooLarge
    else if p.FormName = [] then readForm (maxParts - 1) maxFileMemoryBytes maxMemoryBytes ps
    else
      let mem1 : Int := maxMemoryBytes - byteLen p.FormName - 200
      if mem1 < 0 then .error ErrMessageTooLarge
      else if p.FileName = [] then
        -- value, store as string in memory
        let mem2 : Int := mem1 - p.Size
        if mem2 < 0 then .error ErrMessageTooLarge
        else readForm (maxParts - 1) maxFileMemoryBytes mem2 ps
      else
        -- file, store in memory or on disk
        let mem2 : Int := mem1 - mimeHeaderSize p.Header - 200 - 100
        if mem2 < 0 then .error ErrMessageTooLarge
        else if maxFileMemoryBytes < p.Size then
          (readForm (maxParts - 1) maxFileMemoryBytes mem2 ps).map
            (fun fs => (p.FormName, ⟨p.FileName, p.Size, true⟩) :: fs)
        else
          (readForm (maxParts - 1) (maxFileMemoryBytes - p.Size) (mem2 - p.Size) ps).map
            (fun fs => (p.FormName, ⟨p.FileName, p.Size, false⟩) :: fs)

/-- Go `Request.ParseMultipartForm(maxMemory)`: "The whole request body is
parsed and up to a total of maxMemory bytes of its file parts are stored in
memory, with the remainder stored on disk in temporary files." At most 1000
parts are read, and a further 10 MiB are reserved for what is not file
content. A body on which `nextPart` itself fails is `malformed`. -/
def ParseMultipartForm (r : Request) (maxMemory : Nat) : Except GoString Form :=
  match r.Body with
  | .malformed => .error "request Content-Type isn't multipart/form-data".toList
  | .multipart parts => (readForm 1000 maxMemory (maxMemory + 10 <<< 20) parts).map Form.mk

/-- Go `Request.FormFile(key)`: the first file of the parsed form under `key`,
or `http.ErrMissingFile`. -/
def FormFile (form : Form) (key : GoString) : Except GoString FileHeader :=
  match form.File.find? (fun kv => kv.1 = key) with
  | some kv => .ok kv.2
  | none => .error "http: no such file".toList

/-- The three outcomes of `os.Stat` that `os.IsNotExist` tells apart. -/
inductive StatResult
  | ok
  | notExist
  | otherError
  deriving DecidableEq, Repr

/-- A call a handler makes to the file system, the conversion engine or the
logger, with the outcome where the handler depends on it. -/
inductive Effect
  | osCreate (path : GoString) (ok : Bool)
  | ioCopy (path : GoString) (size : Nat) (ok : Bool)
  | documentOpen (path : GoString) (ok : Bool)
  | writeToFile (path : GoString) (ok : Bool)
  | osRemove (path : GoString)
  | osStat (path : GoString)
  | serveFile (path : GoString)
  | scheduleRemove (minutes : Nat) (path : GoString)
  | logPrintf (msg : GoString)
  deriving DecidableEq, Repr

/-- What a handler has written to its `http.ResponseWriter`. -/
structure Response where
  status : Nat
  header : List (GoString × GoString)
  body : GoString
  deriving DecidableEq, Repr

/-- The environment of a request: the Unicode case table, the clock, and the
answers of the file system and of the conversion engine. An engine call
answers `none` on success and `some cause` with the error text on failure. -/
structure Env where
  caseTable : Char → Char
  now : time.Time
  osCreate : GoString → Bool
  ioCopy : GoString → Bool
  documentOpen : GoString → Option GoString
  writeToFile : GoString → Option GoString
  osStat : GoString → StatResult
  serveFile : GoString → List (GoString × GoString) → Response

/-- Go `http.Header.Set`: replace the values of `key` by `value`. -/
def headerSet (h : List (GoString × GoString)) (key value : GoString) :
    List (GoString × GoString) :=
  h.filter (fun kv => kv.1 ≠ key) ++ [(key, value)]

/-- Go `http.Error(w, msg, code)` on a fresh response: plain-text headers, the
status code, and the message followed by a newline. -/
def httpError (msg : GoString) (code : Nat) : Response :=
  { status := code
    header := headerSet (headerSet [] "Content-Type".toList "text/plain; charset=utf-8".toList)
      "X-Content-Type-Options".toList "nosniff".toList
    body := msg ++ ['\n'] }

/-- The set of files present after a trace of effects, starting from `fs`:
a successful `os.Create` or `WriteToFile` adds its path, `os.Remove` deletes
it. -/
def fsAfter (fs : List GoString) (trace : List Effect) : List GoString :=
  trace.foldl
    (fun fs e =>
      match e with
      | .osCreate p true => p :: fs
      | .writeToFile p true => p :: fs
      | .osRemove p => fs.filter (fun q => q ≠ p)
      | _ => fs)
    fs

/-! ## `main.go` -/

/-- The constant `maxFileSize = 10 << 20`. -/
def maxFileSize : Nat := 10 <<< 20

/-- The constant `uploadDir = "./uploads"`. -/
def uploadDir : GoString := "./uploads".toList

/-- The constant `outputDir = "./output"`. -/
def outputDir : GoString := "./output".toList

/-- The function `convertDocxToPdf` of `main.go`: open the document, convert it, write the
result; an error of the engine is wrapped with the step that failed. Returns
the error, if any, and the engine calls made. -/
def convertDocxToPdf (env : Env) (docxPath pdfPath : GoString) :
    Option GoString × List Effect :=
  match env.documentOpen docxPath with
  | some err =>
    (some ("failed to open DOCX file: ".toList ++ err), [.documentOpen docxPath false])
  | none =>
    match env.writeToFile pdfPath with
    | some err =>
      (some ("failed to write PDF file: ".toList ++ err),
        [.documentOpen docxPath true, .writeToFile pdfPath false])
    | none => (none, [.documentOpen docxPath true, .writeToFile pdfPath true])

/-- The extension check of `convertHandler`:
`strings.HasSuffix(strings.ToLower(header.Filename), ".docx")`. -/
def extensionCheck (caseTable : Char → Char) (filename : GoString) : Bool :=
  strings.HasSuffix (strings.ToLower caseTable filename) ".docx".toList

/-- The value `timestamp := time.Now().Format("20060102_150405")`. -/
def timestamp (now : time.Time) : GoString := now.Format time.layout20060102_150405

/-- The value `baseFilename := strings.TrimSuffix(header.Filename, filepath.Ext(header.Filename))`. -/
def baseFilename (filename : GoString) : GoString :=
  strings.TrimSuffix filename (filepath.Ext filename)

/-- The value `docxFilename := fmt.Sprintf("%s_%s.docx", baseFilename, timestamp)`. -/
def docxFilename (filename : GoString) (now : time.Time) : GoString :=
  baseFilename filename ++ "_".toList ++ timestamp now ++ ".docx".toList

/-- The value `pdfFilename := fmt.Sprintf("%s_%s.pdf", baseFilename, timestamp)`. -/
def pdfFilename (filename : GoString) (now : time.Time) : GoString :=
  baseFilename filename ++ "_".toList ++ timestamp now ++ ".pdf".toList

/-- The success page of `convertHandler` up to the `%s` verb. -/
def successPageHead : GoString :=
  ("\n<!DOCTYPE html>\n<html>\n<head>\n    <title>Conversion Complete</title>\n    <style>\n" ++
   "        body \x7b font-family: Arial, sans-serif; max-width: 600px; margin: 50px auto; padding: 20px; \x7d\n" ++
   "        .success \x7b background: #d4edda; border: 1px solid #c3e6cb; padding: 15px; border-radius: 5px; \x7d\n" ++
   "        a \x7b color: #007cba; text-decoration: none; \x7d\n" ++
   "        a:hover \x7b text-decoration: underline; \x7d\n" ++
   "    </style>\n</head>\n<body>\n    <h1>Conversion Complete!</h1>\n    <div class=\"success\">\n" ++
   "        <p>Your DOCX file has been successfully converted to PDF.</p>\n" ++
   "        <p><a href=\"/download/").toList

/-- The success page of `convertHandler` after the `%s` verb. -/
def successPageTail : GoString :=
  ("\" download>Download PDF</a></p>\n    </div>\n" ++
   "    <p><a href=\"/\">Convert another file</a></p>\n</body>\n</html>").toList

/-- The function `convertHandler` of `main.go`. Returns the response and the trace of calls
made to the file system and the conversion engine. -/
def convertHandler (env : Env) (r : Request) : Response × List Effect :=
  if r.Method ≠ "POST".toList then (httpError "Method not allowed".toList 405, [])
  else
    match ParseMultipartForm r maxFileSize with
    | .error _ => (httpError "File too large".toList 400, [])
    | .ok form =>
      match FormFile form "docx".toList with
      | .error _ => (httpError "Error retrieving file".toList 400, [])
      | .ok header =>
        if !extensionCheck env.caseTable header.Filename then
          (httpError "Only DOCX files are allowed".toList 400, [])
        else
          let docxName := docxFilename header.Filename env.now
          let pdfName := pdfFilename header.Filename env.now
          let docxPath := filepath.Join [uploadDir, docxName]
          if !env.osCreate docxPath then
            (httpError "Error saving file".toList 500, [.osCreate docxPath false])
          else if !env.ioCopy docxPath then
            (httpError "Error saving file".toList 500,
              [.osCreate docxPath true, .ioCopy docxPath header.Size false])
          else
            let pdfPath := filepath.Join [outputDir, pdfName]
            let saved : List Effect :=
              [.osCreate docxPath true, .ioCopy docxPath header.Size true]
            match convertDocxToPdf env docxPath pdfPath with
            | (some err, calls) =>
              (httpError ("Error converting file: ".toList ++ err) 500,
                saved ++ calls ++ [.logPrintf ("Conversion error: ".toList ++ err)])
            | (none, calls) =>
              ({ status := 200
                 header := headerSet [] "Content-Type".toList "text/html".toList
                 body := successPageHead ++ pdfName ++ successPageTail },
                saved ++ calls ++ [.osRemove docxPath])

/-- The function `downloadHandler` of `main.go`. Returns the response and the trace of calls
made to the file system; the goroutine that sleeps five minutes and removes
the file is the effect `scheduleRemove 5`. -/
def downloadHandler (env : Env) (r : Request) : Response × List Effect :=
  let filename := strings.TrimPrefix r.Path "/download/".toList
  if filename = [] then (httpError "Filename required".toList 400, [])
  else if strings.Contains filename "..".toList || strings.Contains filename "/".toList then
    (httpError "Invalid filename".toList 400, [])
  else
    let path := filepath.Join [outputDir, filename]
    match env.osStat path with
    | .notExist => (httpError "File not found".toList 404, [.osStat path])
    | _ =>
      let header :=
        headerSet
          (headerSet [] "Content-Disposition".toList ("attachment; filename=".toList ++ filename))
          "Content-Type".toList "application/pdf".toList
      (env.serveFile path header, [.osStat path, .serveFile path, .scheduleRemove 5 path])

/-- An environment in which every call succeeds: no file-system or engine
error, every file exists and is served with status 200. -/
def Env.allOk (now : time.Time) : Env :=
  { caseTable := fun c => c
    now := now
    osCreate := fun _ => true
    ioCopy := fun _ => true
    documentOpen := fun _ => none
    writeToFile := fun _ => none
    osStat := fun _ => .ok
    serveFile := fun _ h => { status := 200, header := h, body := "%PDF".toList } }

/-- The MIME header of a file part as a browser sends it for the field `docx`. -/
def uploadHeader (filename : GoString) : List (GoString × List GoString) :=
  [("Content-Disposition".toList,
      ["form-data; name=\"docx\"; filename=\"".toList ++ filename ++ "\"".toList]),
    ("Content-Type".toList, ["application/octet-stream".toList])]

/-- A POST to `/convert` carrying one file of the given name and size in the
form field `docx`. -/
def uploadRequest (filename : GoString) (size : Nat) : Request :=
  { Method := "POST".toList
    Path := "/convert".toList
    Body := .multipart
      [{ FormName := "docx".toList, FileName := filename, Header := uploadHeader filename,
         Size := size }] }

/-- A GET of the given path. -/
def getRequest (path : GoString) : Request :=
  { Method := "GET".toList, Path := path, Body := .multipart [] }

/-- The longest name of a directory entry, in bytes (`NAME_MAX` on Linux). -/
def nameMax : Nat := 255

/-- The elements of a path: the pieces between its separators. -/
def pathElements : GoString → List GoString
  | [] => [[]]
  | c :: rest =>
    if c = '/' then [] :: pathElements rest
    else
      match pathElements rest with
      | [] => [[c]]
      | e :: es => (c :: e) :: es

/-- Go `os.Stat` on a Unix file system that holds exactly the paths `files`: a
path with an element longer than `NAME_MAX` bytes fails with `ENAMETOOLONG`, an
error for which `os.IsNotExist` is false; any other path is found, or fails
with `ENOENT`, for which `os.IsNotExist` is true. -/
def statOn (files : List GoString) (path : GoString) : StatResult :=
  if (pathElements path).any (fun e => decide (nameMax < byteLen e)) then .otherError
  else if path ∈ files then .ok
  else .notExist

/-- Go `http.Error(w, msg, code)` on a response whose headers `header` are
already set: they stay, the plain-text headers are added. -/
def httpErrorWith (header : List (GoString × GoString)) (msg : GoString) (code : Nat) :
    Response :=
  { status := code
    header := headerSet (headerSet header "Content-Type".toList "text/plain; charset=utf-8".toList)
      "X-Content-Type-Options".toList "nosniff".toList
    body := msg ++ ['\n'] }

/-- Go `http.ServeFile` on that file system: a file that opens is sent with
status 200; otherwise `http.Error` answers with the status `toHTTPError`
picks, 404 for a missing file and 500 for any other error. -/
def serveFileOn (files : List GoString) (path : GoString)
    (header : List (GoString × GoString)) : Response :=
  match statOn files path with
  | .ok => { status := 200, header := header, body := "%PDF".toList }
  | .notExist => httpErrorWith header "404 page not found".toList 404
  | .otherError => httpErrorWith header "500 Internal Server Error".toList 500

/-- The environment of a server whose file system holds exactly the paths
`files`; creating, copying and converting succeed. -/
def Env.onFiles (now : time.Time) (files : List GoString) : Env :=
  { Env.allOk now with
    osStat := statOn files
    serveFile := serveFileOn files }

/-- A file name of 300 letters `a`. -/
def longName : GoString := List.replicate 300 'a'

/-! ## Vocabulary of the claims -/

/-- A path element that is a real file name: not empty, without separator, and
neither `.` nor `..`. -/
def IsFileName (name : GoString) : Prop :=
  name ≠ [] ∧ '/' ∉ name ∧ name ≠ ['.'] ∧ name ≠ ['.', '.']

instance (name : GoString) : Decidable (IsFileName name) := by
  unfold IsFileName; infer_instance

/-- The four letters of the extension, each with its upper case. -/
def docxLetters : List (Char × Char) := [('d', 'D'), ('o', 'O'), ('c', 'C'), ('x', 'X')]

/-- The file names the claim describes: the last five characters are `.docx`
in any mix of upper and lower case. -/
def EndsInDocxAnyCase (f : GoString) : Prop :=
  ∃ base c1 c2 c3 c4, f = base ++ ['.', c1, c2, c3, c4] ∧
    (c1 = 'd' ∨ c1 = 'D') ∧ (c2 = 'o' ∨ c2 = 'O') ∧ (c3 = 'c' ∨ c3 = 'C') ∧ (c4 = 'x' ∨ c4 = 'X')

/-- A number below 100 in two decimal digits, zero-padded. -/
def twoDigits (n : Nat) : GoString := [time.utod (n / 10), time.utod (n % 10)]

/-- A number below 10000 in four decimal digits, zero-padded. -/
def fourDigits (n : Nat) : GoString :=
  [time.utod (n / 1000), time.utod (n / 100 % 10), time.utod (n / 10 % 10), time.utod (n % 10)]

/-- The string `YYYYMMDD_HHMMSS` of a time, every field zero-padded, as the
specification words it. -/
def YYYYMMDD_HHMMSS (t : time.Time) : GoString :=
  fourDigits t.year.toNat ++ twoDigits t.month ++ twoDigits t.day ++ ['_'] ++
    twoDigits t.hour ++ twoDigits t.minute ++ twoDigits t.second

/-- A year the four-digit layout prints without overflow. -/
def FourDigitYear (t : time.Time) : Prop := 0 ≤ t.year ∧ t.year ≤ 9999

instance (t : time.Time) : Decidable (FourDigitYear t) := by
  unfold FourDigitYear; infer_instance

/-- Two times lie in the same calendar second. -/
def SameSecond (t1 t2 : time.Time) : Prop :=
  t1.year = t2.year ∧ t1.month = t2.month ∧ t1.day = t2.day ∧
  t1.hour = t2.hour ∧ t1.minute = t2.minute ∧ t1.second = t2.second

instance (t1 t2 : time.Time) : Decidable (SameSecond t1 t2) := by
  unfold SameSecond; infer_instance

/-- The value of a decimal digit character. -/
def digitVal (c : Char) : Nat := c.toNat - '0'.toNat

/-- A request is an upload of `header`: a POST whose multipart form parses and
holds `header` as its first file under the field `docx`. -/
def Upload (r : Request) (header : FileHeader) : Prop :=
  r.Method = "POST".toList ∧
    ∃ form, ParseMultipartForm r maxFileSize = .ok form ∧ FormFile form "docx".toList = .ok header

/-- 10:00:00 on 1 January 2024. -/
def newYear2024 : time.Time :=
  { year := 2024, month := 1, day := 1, hour := 10, minute := 0, second := 0, nanosecond := 0 }

/-! ## Lemmas on the library functions and on the generated names -/

theorem cleanLoop_nil (rooted : Bool) (fuel : Nat) (out : GoString) (dotdot : Nat) :
    filepath.cleanLoop rooted fuel [] out dotdot = out := by
  cases fuel <;> rfl

theorem takeWhile_no_sep (name : GoString) (h : '/' ∉ name) :
    name.takeWhile (fun x => x ≠ '/') = name := by
  rw [List.takeWhile_eq_self_iff]
  intro x hx
  have : x ≠ '/' := fun e => h (e ▸ hx)
  simpa using this

theorem dropWhile_no_sep (name : GoString) (h : '/' ∉ name) :
    name.dropWhile (fun x => x ≠ '/') = [] := by
  rw [List.dropWhile_eq_nil_iff]
  intro x hx
  have : x ≠ '/' := fun e => h (e ▸ hx)
  simpa using this

/-- The last iteration of `Clean` on a real file name appends a separator and
the name to a non-empty buffer. -/
theorem cleanLoop_fileName (fuel : Nat) (name out : GoString) (dotdot : Nat)
    (h : IsFileName name) (hout : out ≠ []) :
    filepath.cleanLoop false (fuel + 1) name out dotdot = out ++ ['/'] ++ name := by
  obtain ⟨hne, hsep, hdot, hdotdot⟩ := h
  obtain ⟨c, rest, rfl⟩ := List.exists_cons_of_ne_nil hne
  have hc : c ≠ '/' := fun e => hsep (by simp [e])
  have hrest : '/' ∉ rest := fun hm => hsep (List.mem_cons_of_mem _ hm)
  have hhead : rest.head? ≠ some '/' := by
    intro e
    cases rest with
    | nil => simp at e
    | cons d tl => simp at e; exact hrest (by simp [e])
  have h1 : ¬ (c = '.' ∧ (rest = [] ∨ rest.head? = some '/')) := by
    rintro ⟨rfl, hr | hr⟩
    · exact hdot (by simp [hr])
    · exact hhead hr
  have h2 : ¬ (c = '.' ∧ rest.head? = some '.' ∧
      (rest.tail = [] ∨ rest.tail.head? = some '/')) := by
    rintro ⟨rfl, hr, ht⟩
    cases rest with
    | nil => simp at hr
    | cons d tl =>
      simp at hr
      subst hr
      rcases ht with ht | ht
      · simp at ht
        exact hdotdot (by simp [ht])
      · cases tl with
        | nil => simp at ht
        | cons e tl2 =>
          simp at ht
          exact hrest (by simp [ht])
  have hlen : out.length ≠ 0 := by
    intro e
    exact hout (List.length_eq_zero.mp e)
  rw [filepath.cleanLoop]
  rw [if_neg hc, if_neg h1, if_neg h2]
  simp only [takeWhile_no_sep _ hsep, dropWhile_no_sep _ hsep, cleanLoop_nil]
  simp [hlen]

/-- Joining the output directory with a real file name puts the name directly
below `output`. -/
theorem Join_outputDir (name : GoString) (h : IsFileName name) :
    filepath.Join [outputDir, name] = "output/".toList ++ name := by
  have hd : outputDir = ['.', '/', 'o', 'u', 't', 'p', 'u', 't'] := rfl
  have hs : "output/".toList = ['o', 'u', 't', 'p', 'u', 't', '/'] := rfl
  rw [hd, hs]
  simp only [filepath.Join, strings.Join, filepath.Clean]
  simp [filepath.cleanLoop]
  rw [cleanLoop_fileName _ _ _ _ h (by simp)]
  simp

/-- Joining the upload directory with a real file name puts the name directly
below `uploads`. -/
theorem Join_uploadDir (name : GoString) (h : IsFileName name) :
    filepath.Join [uploadDir, name] = "uploads/".toList ++ name := by
  have hd : uploadDir = ['.', '/', 'u', 'p', 'l', 'o', 'a', 'd', 's'] := rfl
  have hs : "uploads/".toList = ['u', 'p', 'l', 'o', 'a', 'd', 's', '/'] := rfl
  rw [hd, hs]
  simp only [filepath.Join, strings.Join, filepath.Clean]
  simp [filepath.cleanLoop]
  rw [cleanLoop_fileName _ _ _ _ h (by simp)]
  simp

theorem HasPrefix_iff (s p : GoString) : strings.HasPrefix s p = true ↔ p <+: s := by
  unfold strings.HasPrefix
  simp only [Bool.and_eq_true, decide_eq_true_eq]
  constructor
  · rintro ⟨-, h⟩
    exact h ▸ List.take_prefix _ _
  · rintro ⟨t, rfl⟩
    simp

theorem HasSuffix_iff (s suf : GoString) : strings.HasSuffix s suf = true ↔ suf <:+ s := by
  unfold strings.HasSuffix
  simp only [Bool.and_eq_true, decide_eq_true_eq]
  constructor
  · rintro ⟨-, h⟩
    exact h ▸ List.drop_suffix _ _
  · rintro ⟨t, rfl⟩
    simp

theorem Contains_iff (s sub : GoString) : strings.Contains s sub = true ↔ sub <:+: s := by
  induction s with
  | nil =>
    rw [strings.Contains, HasPrefix_iff]
    simp
  | cons c rest ih =>
    rw [strings.Contains, Bool.or_eq_true, HasPrefix_iff, ih, List.infix_cons_iff]

theorem Contains_sep_iff (s : GoString) : strings.Contains s ['/'] = true ↔ '/' ∈ s := by
  rw [Contains_iff]
  constructor
  · rintro ⟨a, b, rfl⟩
    simp
  · intro hm
    obtain ⟨a, b, rfl⟩ := List.append_of_mem hm
    exact ⟨a, b, by simp⟩

theorem ToLower_dot (ct : Char → Char) (h : unicode.CaseTableASCII ct) (r : Char) :
    unicode.ToLower ct r = '.' ↔ r = '.' := by
  constructor
  · intro e
    unfold unicode.ToLower at e
    split at e
    · split at e
      · rename_i hlt hup
        have hr : r = Char.ofNat r.toNat := (Char.ofNat_toNat r).symm
        generalize r.toNat = n at hr hlt hup e
        subst hr
        have h1 : 65 ≤ n := hup.1
        have h2 : n ≤ 90 := hup.2
        interval_cases n <;> revert e <;> decide
      · exact e
    · rename_i hge
      rcases h r (by omega) with h1 | h1 | h1
      · rw [e] at h1; exact absurd h1 (by decide)
      · rw [e] at h1; exact absurd h1 (by decide)
      · rw [e] at h1; exact absurd h1 (by decide)
  · rintro rfl
    rfl

theorem ToLower_letter (ct : Char → Char) (h : unicode.CaseTableASCII ct) (r x X : Char)
    (hx : (x, X) ∈ docxLetters) :
    unicode.ToLower ct r = x ↔ r = x ∨ r = X := by
  simp only [docxLetters, List.mem_cons, Prod.mk.injEq, List.mem_singleton, List.not_mem_nil,
    or_false] at hx
  constructor
  · intro e
    unfold unicode.ToLower at e
    split at e
    · split at e
      · rename_i hlt hup
        have hr : r = Char.ofNat r.toNat := (Char.ofNat_toNat r).symm
        generalize r.toNat = n at hr hlt hup e
        subst hr
        have h1 : 65 ≤ n := hup.1
        have h2 : n ≤ 90 := hup.2
        rcases hx with ⟨rfl, rfl⟩ | ⟨rfl, rfl⟩ | ⟨rfl, rfl⟩ | ⟨rfl, rfl⟩ <;>
          interval_cases n <;> revert e <;> decide
      · exact Or.inl e
    · rename_i hge
      rcases hx with ⟨rfl, rfl⟩ | ⟨rfl, rfl⟩ | ⟨rfl, rfl⟩ | ⟨rfl, rfl⟩ <;>
        rcases h r (by omega) with h1 | h1 | h1 <;>
        rw [e] at h1 <;> exact absurd h1 (by decide)
  · rcases hx with ⟨rfl, rfl⟩ | ⟨rfl, rfl⟩ | ⟨rfl, rfl⟩ | ⟨rfl, rfl⟩ <;>
      rintro (rfl | rfl) <;> rfl

theorem extensionCheck_iff (ct : Char → Char) (h : unicode.CaseTableASCII ct) (f : GoString) :
    extensionCheck ct f = true ↔ EndsInDocxAnyCase f := by
  unfold extensionCheck EndsInDocxAnyCase
  rw [HasSuffix_iff]
  have hs : ".docx".toList = ['.', 'd', 'o', 'c', 'x'] := rfl
  rw [hs]
  unfold strings.ToLower
  constructor
  · rintro ⟨pre, hpre⟩
    obtain ⟨f1, f2, rfl, -, h2⟩ := List.map_eq_append_iff.mp hpre.symm
    rcases f2 with _ | ⟨a, _ | ⟨c1, _ | ⟨c2, _ | ⟨c3, _ | ⟨c4, _ | ⟨c5, tl⟩⟩⟩⟩⟩⟩
    all_goals try (simp at h2; done)
    simp only [List.map_cons, List.map_nil, List.cons.injEq, and_true] at h2
    obtain ⟨ha, h1, h2, h3, h4⟩ := h2
    rw [ToLower_dot ct h] at ha
    subst ha
    exact ⟨f1, c1, c2, c3, c4, rfl,
      (ToLower_letter ct h _ _ _ (by simp [docxLetters])).mp h1,
      (ToLower_letter ct h _ _ _ (by simp [docxLetters])).mp h2,
      (ToLower_letter ct h _ _ _ (by simp [docxLetters])).mp h3,
      (ToLower_letter ct h _ _ _ (by simp [docxLetters])).mp h4⟩
  · rintro ⟨base, c1, c2, c3, c4, rfl, h1, h2, h3, h4⟩
    refine ⟨base.map (unicode.ToLower ct), ?_⟩
    rw [List.map_append]
    congr 1
    simp only [List.map_cons, List.map_nil, List.cons.injEq, and_true]
    exact ⟨((ToLower_dot ct h _).mpr rfl).symm,
      ((ToLower_letter ct h _ _ _ (by simp [docxLetters])).mpr h1).symm,
      ((ToLower_letter ct h _ _ _ (by simp [docxLetters])).mpr h2).symm,
      ((ToLower_letter ct h _ _ _ (by simp [docxLetters])).mpr h3).symm,
      ((ToLower_letter ct h _ _ _ (by simp [docxLetters])).mpr h4).symm⟩

/-- Under the extension check the base name is the file name without its last
five characters. -/
theorem baseFilename_of_docx (f : GoString) (h : EndsInDocxAnyCase f) :
    baseFilename f = f.take (f.length - 5) := by
  obtain ⟨base, c1, c2, c3, c4, rfl, h1, h2, h3, h4⟩ := h
  have hext : filepath.Ext (base ++ ['.', c1, c2, c3, c4]) = ['.', c1, c2, c3, c4] := by
    unfold filepath.Ext
    simp only [List.reverse_append, List.reverse_cons, List.reverse_nil, List.nil_append,
      List.cons_append, List.singleton_append]
    rcases h1 with rfl | rfl <;> rcases h2 with rfl | rfl <;> rcases h3 with rfl | rfl <;>
      rcases h4 with rfl | rfl <;> simp [filepath.extLoop]
  unfold baseFilename
  rw [hext]
  unfold strings.TrimSuffix
  rw [if_pos ((HasSuffix_iff _ _).mpr ⟨base, rfl⟩)]
  simp

theorem appendInt_two (b : GoString) (n : Nat) (h : n < 100) :
    time.appendInt b (n : Int) 2 = b ++ twoDigits n := by
  have hn : ¬ ((n : Int) < 0) := by omega
  simp [time.appendInt, twoDigits, hn, h]

theorem appendInt_four (b : GoString) (n : Nat) (h : n < 10000) :
    time.appendInt b (n : Int) 4 = b ++ fourDigits n := by
  have hn : ¬ ((n : Int) < 0) := by omega
  simp [time.appendInt, fourDigits, hn, h]

theorem timestamp_eq (t : time.Time) (hy : FourDigitYear t) (hv : t.valid) :
    timestamp t = YYYYMMDD_HHMMSS t := by
  obtain ⟨year, month, day, hour, minute, second, nano⟩ := t
  obtain ⟨hy0, hy1⟩ := hy
  obtain ⟨-, hmo, -, hd, hh, hmi, hs, -⟩ := hv
  simp only at hy0 hy1 hmo hd hh hmi hs
  obtain ⟨y, rfl⟩ := Int.eq_ofNat_of_zero_le hy0
  have hy2 : y < 10000 := by omega
  have hmo2 : month < 100 := by omega
  have hd2 : day < 100 := by omega
  have hh2 : hour < 100 := by omega
  have hmi2 : minute < 100 := by omega
  have hs2 : second < 100 := by omega
  simp only [timestamp, time.Time.Format, time.layout20060102_150405, time.appendChunk,
    List.foldl_cons, List.foldl_nil, YYYYMMDD_HHMMSS, Int.toNat_ofNat]
  rw [appendInt_four _ _ hy2, appendInt_two _ _ hmo2, appendInt_two _ _ hd2,
    appendInt_two _ _ hh2, appendInt_two _ _ hmi2, appendInt_two _ _ hs2]
  simp

theorem timestamp_length (t : time.Time) (hy : FourDigitYear t) (hv : t.valid) :
    (timestamp t).length = 15 := by
  rw [timestamp_eq t hy hv]
  rfl

theorem digitVal_utod (d : Nat) (h : d < 10) : digitVal (time.utod d) = d := by
  interval_cases d <;> rfl

theorem utod_inj (a b : Nat) (ha : a < 10) (hb : b < 10) (h : time.utod a = time.utod b) :
    a = b := by
  have := congrArg digitVal h
  rwa [digitVal_utod a ha, digitVal_utod b hb] at this

theorem twoDigits_inj (a b : Nat) (ha : a < 100) (hb : b < 100)
    (h : twoDigits a = twoDigits b) : a = b := by
  simp only [twoDigits, List.cons.injEq, and_true] at h
  have h1 := utod_inj _ _ (by omega) (by omega) h.1
  have h2 := utod_inj _ _ (Nat.mod_lt _ (by norm_num)) (Nat.mod_lt _ (by norm_num)) h.2
  omega

theorem fourDigits_inj (a b : Nat) (ha : a < 10000) (hb : b < 10000)
    (h : fourDigits a = fourDigits b) : a = b := by
  simp only [fourDigits, List.cons.injEq, and_true] at h
  have h1 := utod_inj _ _ (by omega) (by omega) h.1
  have h2 := utod_inj _ _ (Nat.mod_lt _ (by norm_num)) (Nat.mod_lt _ (by norm_num)) h.2.1
  have h3 := utod_inj _ _ (Nat.mod_lt _ (by norm_num)) (Nat.mod_lt _ (by norm_num)) h.2.2.1
  have h4 := utod_inj _ _ (Nat.mod_lt _ (by norm_num)) (Nat.mod_lt _ (by norm_num)) h.2.2.2
  omega

theorem timestamp_inj (t1 t2 : time.Time) (hy1 : FourDigitYear t1) (hv1 : t1.valid)
    (hy2 : FourDigitYear t2) (hv2 : t2.valid) :
    timestamp t1 = timestamp t2 ↔ SameSecond t1 t2 := by
  rw [timestamp_eq t1 hy1 hv1, timestamp_eq t2 hy2 hv2]
  obtain ⟨y1, mo1, d1, h1, mi1, s1, n1⟩ := t1
  obtain ⟨y2, mo2, d2, h2, mi2, s2, n2⟩ := t2
  obtain ⟨hy10, hy11⟩ := hy1
  obtain ⟨hy20, hy21⟩ := hy2
  obtain ⟨-, hmo1, -, hd1, hh1, hmi1, hs1, -⟩ := hv1
  obtain ⟨-, hmo2, -, hd2, hh2, hmi2, hs2, -⟩ := hv2
  simp only at hy10 hy11 hy20 hy21 hmo1 hd1 hh1 hmi1 hs1 hmo2 hd2 hh2 hmi2 hs2
  simp only [SameSecond, YYYYMMDD_HHMMSS]
  constructor
  · intro h
    have e1 := List.append_inj h rfl
    have e2 := List.append_inj e1.1 rfl
    have e3 := List.append_inj e2.1 rfl
    have e4 := List.append_inj e3.1 rfl
    have e5 := List.append_inj e4.1 rfl
    have e6 := List.append_inj e5.1 rfl
    have hy := fourDigits_inj _ _ (by omega) (by omega) e6.1
    refine ⟨by omega, twoDigits_inj _ _ (by omega) (by omega) e6.2,
      twoDigits_inj _ _ (by omega) (by omega) e5.2,
      twoDigits_inj _ _ (by omega) (by omega) e3.2,
      twoDigits_inj _ _ (by omega) (by omega) e2.2,
      twoDigits_inj _ _ (by omega) (by omega) e1.2⟩
  · rintro ⟨rfl, rfl, rfl, rfl, rfl, rfl⟩
    rfl

theorem utod_ne_sep (d : Nat) (h : d < 10) : time.utod d ≠ '/' := by
  interval_cases d <;> decide

theorem digitChar_ne_sep (d : Nat) (h : d < 10) : Nat.digitChar d ≠ '/' := by
  interval_cases d <;> decide

theorem toDigitsCore_no_sep (fuel n : Nat) (ds : List Char) (h : '/' ∉ ds) :
    '/' ∉ Nat.toDigitsCore 10 fuel n ds := by
  induction fuel generalizing n ds with
  | zero => simpa [Nat.toDigitsCore] using h
  | succ fuel ih =>
    have hd : '/' ∉ Nat.digitChar (n % 10) :: ds := by
      intro hm
      rcases List.mem_cons.mp hm with e | e
      · exact digitChar_ne_sep _ (Nat.mod_lt _ (by norm_num)) e.symm
      · exact h e
    rw [Nat.toDigitsCore]
    split
    · exact hd
    · exact ih _ _ hd

theorem appendInt_no_sep (b : GoString) (x : Int) (width : Nat) (h : '/' ∉ b) :
    '/' ∉ time.appendInt b x width := by
  have hb1 : '/' ∉ (if x < 0 then b ++ ['-'] else b) := by
    split
    · simp [h]
    · exact h
  unfold time.appendInt
  simp only
  split
  · rename_i hc
    have h1 := utod_ne_sep (x.natAbs / 10) (by omega)
    have h2 := utod_ne_sep (x.natAbs % 10) (by omega)
    simp only [List.mem_append, List.mem_cons, List.mem_singleton, List.not_mem_nil, or_false,
      not_or]
    exact ⟨hb1, h1.symm, h2.symm⟩
  · split
    · rename_i hc
      have h1 := utod_ne_sep (x.natAbs / 1000) (by omega)
      have h2 := utod_ne_sep (x.natAbs / 100 % 10) (by omega)
      have h3 := utod_ne_sep (x.natAbs / 10 % 10) (by omega)
      have h4 := utod_ne_sep (x.natAbs % 10) (by omega)
      simp only [List.mem_append, List.mem_cons, List.mem_singleton, List.not_mem_nil, or_false,
        not_or]
      exact ⟨hb1, h1.symm, h2.symm, h3.symm, h4.symm⟩
    · simp only [List.mem_append, not_or]
      refine ⟨⟨hb1, ?_⟩, toDigitsCore_no_sep _ _ _ (by simp)⟩
      intro hm
      exact absurd (List.eq_of_mem_replicate hm) (by decide)

theorem timestamp_no_sep (t : time.Time) : '/' ∉ timestamp t := by
  simp only [timestamp, time.Time.Format, time.layout20060102_150405, time.appendChunk,
    List.foldl_cons, List.foldl_nil]
  refine appendInt_no_sep _ _ _ (appendInt_no_sep _ _ _ (appendInt_no_sep _ _ _ ?_))
  simp only [List.mem_append, List.mem_singleton, not_or]
  refine ⟨appendInt_no_sep _ _ _ (appendInt_no_sep _ _ _ (appendInt_no_sep _ _ _ (by simp))), ?_⟩
  decide

theorem baseFilename_no_sep (f : GoString) (h : '/' ∉ f) : '/' ∉ baseFilename f := by
  unfold baseFilename strings.TrimSuffix
  split
  · exact fun hm => h (List.mem_of_mem_take hm)
  · exact h

/-- A generated name, `base_timestamp.ext`, is a real file name whenever the
uploaded name holds no separator. -/
theorem generated_isFileName (f : GoString) (t : time.Time) (ext : GoString)
    (h : '/' ∉ f) (hext : '/' ∉ ext) :
    IsFileName (baseFilename f ++ "_".toList ++ timestamp t ++ ext) := by
  have hu : "_".toList = ['_'] := rfl
  rw [hu]
  refine ⟨by simp, ?_, ?_, ?_⟩
  · simp only [List.mem_append, List.mem_singleton, not_or]
    exact ⟨⟨⟨baseFilename_no_sep f h, by decide⟩, timestamp_no_sep t⟩, hext⟩
  · intro e
    have hm : '_' ∈ baseFilename f ++ ['_'] ++ timestamp t ++ ext := by simp
    rw [e] at hm
    revert hm
    decide
  · intro e
    have hm : '_' ∈ baseFilename f ++ ['_'] ++ timestamp t ++ ext := by simp
    rw [e] at hm
    revert hm
    decide

theorem caseTable_id : unicode.CaseTableASCII (fun c => c) := fun _ h => Or.inl h

theorem byteLen_append (a b : GoString) : byteLen (a ++ b) = byteLen a + byteLen b := by
  simp [byteLen]

theorem mimeHeaderSize_uploadHeader (f : GoString) :
    mimeHeaderSize (uploadHeader f) = 890 + byteLen f := by
  have h1 : byteLen "Content-Disposition".toList = 19 := by decide
  have h2 : byteLen "form-data; name=\"docx\"; filename=\"".toList = 34 := by decide
  have h3 : byteLen "\"".toList = 1 := by decide
  have h4 : byteLen "Content-Type".toList = 12 := by decide
  have h5 : byteLen "application/octet-stream".toList = 24 := by decide
  simp only [mimeHeaderSize, uploadHeader, List.foldl_cons, List.foldl_nil, List.map_cons,
    List.map_nil, List.sum_cons, List.sum_nil, byteLen_append, h1, h2, h3, h4, h5]
  push_cast
  omega

theorem upload_uploadRequest (f : GoString) (size : Nat) (hf : f ≠ [])
    (hlen : byteLen f ≤ 255) :
    Upload (uploadRequest f size) ⟨f, size, decide (maxFileSize < size)⟩ := by
  refine ⟨rfl, ⟨[("docx".toList, ⟨f, size, decide (maxFileSize < size)⟩)]⟩, ?_, ?_⟩
  · have h1 : "docx".toList ≠ [] := by decide
    have h2 : byteLen ['d', 'o', 'c', 'x'] = 4 := by decide
    have h3 : maxFileSize = 10485760 := by decide
    by_cases hs : maxFileSize < size
    · have hs2 : (10485760 : Int) < size := by omega
      simp [ParseMultipartForm, uploadRequest, readForm, h1, h2, h3, hf, hs2, Except.map,
        mimeHeaderSize_uploadHeader]
      split_ifs <;> first | (exfalso; omega) | (simp; omega)
    · have hs2 : ¬ (10485760 : Int) < size := by omega
      simp [ParseMultipartForm, uploadRequest, readForm, h1, h2, h3, hf, hs2, Except.map,
        mimeHeaderSize_uploadHeader]
      split_ifs <;> first | (exfalso; omega) | (simp; omega)
  · simp [FormFile]

/-- A download request whose file name passes the validation (not empty,
no `..`, no `/`) and for which `os.Stat` reports that the resolved path does
not exist is answered with status 404; the stat is the only call made (nothing
is served, no deletion is scheduled) and no `Content-Disposition` header is
set. -/
theorem downloadHandler_notExist (env : Env) (r : Request)
    (hne : strings.TrimPrefix r.Path "/download/".toList ≠ [])
    (hdots : ¬ "..".toList <:+: strings.TrimPrefix r.Path "/download/".toList)
    (hsep : '/' ∉ strings.TrimPrefix r.Path "/download/".toList)
    (hstat : env.osStat
      (filepath.Join [outputDir, strings.TrimPrefix r.Path "/download/".toList]) = .notExist) :
    (downloadHandler env r).1.status = 404 ∧
    (downloadHandler env r).1.body = "File not found\n".toList ∧
    (∀ v, ("Content-Disposition".toList, v) ∉ (downloadHandler env r).1.header) ∧
    (downloadHandler env r).2 =
      [.osStat (filepath.Join [outputDir, strings.TrimPrefix r.Path "/download/".toList])] := by
  have hc : ¬ (strings.Contains (strings.TrimPrefix r.Path "/download/".toList) "..".toList ||
      strings.Contains (strings.TrimPrefix r.Path "/download/".toList) "/".toList) = true := by
    rw [Bool.or_eq_true, Contains_iff]
    rintro (h | h)
    · exact hdots h
    · exact hsep ((Contains_sep_iff _).mp h)
  have hh : ∀ kv ∈ (httpError "File not found".toList 404).header,
      kv.1 ≠ "Content-Disposition".toList := by decide
  unfold downloadHandler
  simp only [if_neg hne, if_neg hc, hstat]
  exact ⟨rfl, rfl, fun v hv => hh _ hv rfl, trivial⟩

theorem names_eq_iff (f1 f2 : GoString) (t1 t2 : time.Time) (ext : GoString)
    (hlen : (timestamp t1).length = (timestamp t2).length) :
    baseFilename f1 ++ "_".toList ++ timestamp t1 ++ ext =
      baseFilename f2 ++ "_".toList ++ timestamp t2 ++ ext ↔
    baseFilename f1 = baseFilename f2 ∧ timestamp t1 = timestamp t2 := by
  constructor
  · intro e
    have e1 := List.append_inj' e rfl
    have e2 := List.append_inj' e1.1 hlen
    have e3 := List.append_inj' e2.1 rfl
    exact ⟨e3.1, e2.2⟩
  · rintro ⟨e1, e2⟩
    rw [e1, e2]

set_option maxRecDepth 100000 in
theorem success_link (name : GoString) :
    "href=\"/download/".toList ++ name ++ "\"".toList <:+:
      successPageHead ++ name ++ successPageTail := by
  have h1 : successPageHead =
      successPageHead.take (successPageHead.length - 16) ++ "href=\"/download/".toList := by
    rfl
  have h2 : successPageTail = "\"".toList ++ successPageTail.drop 1 := by rfl
  refine ⟨successPageHead.take (successPageHead.length - 16), successPageTail.drop 1, ?_⟩
  conv_rhs => rw [h1, h2]
  simp only [List.append_assoc]

/-! ## The claims -/

/-- C1: a download request whose file name (the request path without the
prefix `/download/`) contains `..` or `/` is answered with status 400, and the
handler makes no call to the file system: no stat, no serving, no scheduled
deletion. -/
theorem C1_download_rejects_traversal (env : Env) (r : Request)
    (h : "..".toList <:+: strings.TrimPrefix r.Path "/download/".toList ∨
      '/' ∈ strings.TrimPrefix r.Path "/download/".toList) :
    (downloadHandler env r).1.status = 400 ∧ (downloadHandler env r).2 = [] := by
  have hc : (strings.Contains (strings.TrimPrefix r.Path "/download/".toList) "..".toList ||
      strings.Contains (strings.TrimPrefix r.Path "/download/".toList) "/".toList) = true := by
    rw [Bool.or_eq_true]
    rcases h with h | h
    · exact Or.inl ((Contains_iff _ _).mpr h)
    · exact Or.inr ((Contains_sep_iff _).mpr h)
  unfold downloadHandler
  by_cases hne : strings.TrimPrefix r.Path "/download/".toList = []
  · simp only [if_pos hne]
    exact ⟨rfl, trivial⟩
  · simp only [if_neg hne, if_pos hc]
    exact ⟨rfl, trivial⟩

theorem C1_download_rejects_traversal_witness :
    '/' ∈ strings.TrimPrefix "/download/../main.go".toList "/download/".toList ∧
    (downloadHandler (Env.allOk newYear2024) (getRequest "/download/../main.go".toList)).1.status
      = 400 ∧
    (downloadHandler (Env.allOk newYear2024) (getRequest "/download/../main.go".toList)).2
      = [] :=
  ⟨by decide,
    C1_download_rejects_traversal (Env.allOk newYear2024)
      (getRequest "/download/../main.go".toList) (Or.inr (by decide))⟩

/-- C2, at the failing input: the file name `.` is not empty and contains
neither `..` nor `/`, so it passes the validation of `downloadHandler`; yet
`filepath.Join(outputDir, ".")` is `output`, the output directory itself, not
`output/.`, and the handler stats it, serves it and schedules its removal. -/
theorem C2_dot_resolves_to_output_directory :
    strings.TrimPrefix "/download/.".toList "/download/".toList = ".".toList ∧
    ".".toList ≠ [] ∧ ¬ "..".toList <:+: ".".toList ∧ '/' ∉ ".".toList ∧
    filepath.Join [outputDir, ".".toList] = "output".toList ∧
    filepath.Join [outputDir, ".".toList] ≠ "output/".toList ++ ".".toList ∧
    (downloadHandler (Env.allOk newYear2024) (getRequest "/download/.".toList)).2 =
      [.osStat "output".toList, .serveFile "output".toList,
        .scheduleRemove 5 "output".toList] := by
  refine ⟨by decide, by decide, ?_, by decide, by decide, by decide, by decide⟩
  rw [← Contains_iff]
  decide

/-- C3: the extension check of `convertHandler` passes exactly for the file
names whose last five characters are `.docx` in any mix of upper and lower
case (`A.DOCX` and `a.DocX` pass; `a.txt`, `a.docx` followed by a blank, and
`docx` do not). An upload that fails it is answered with status 400 and the
handler makes no call at all: no file is created and the converter is not
run. An upload that passes it goes straight on to `os.Create` on the upload
path, so the name is not validated any further. -/
theorem C3_extension_check (env : Env) (h : unicode.CaseTableASCII env.caseTable) :
    (∀ f, extensionCheck env.caseTable f = true ↔ EndsInDocxAnyCase f) ∧
    extensionCheck env.caseTable "A.DOCX".toList = true ∧
    extensionCheck env.caseTable "a.DocX".toList = true ∧
    extensionCheck env.caseTable "a.txt".toList = false ∧
    extensionCheck env.caseTable "a.docx ".toList = false ∧
    extensionCheck env.caseTable "docx".toList = false ∧
    (∀ r header, Upload r header → extensionCheck env.caseTable header.Filename = false →
      (convertHandler env r).1.status = 400 ∧ (convertHandler env r).2 = []) ∧
    (∀ r header, Upload r header → extensionCheck env.caseTable header.Filename = true →
      (convertHandler env r).2.head? =
        some (.osCreate (filepath.Join [uploadDir, docxFilename header.Filename env.now])
          (env.osCreate (filepath.Join [uploadDir, docxFilename header.Filename env.now])))) := by
  refine ⟨extensionCheck_iff _ h, rfl, rfl, rfl, rfl, rfl, ?_, ?_⟩
  · rintro r header ⟨hm, form, hp, hf⟩ hext
    simp only [convertHandler, hm, hp, hf, hext, ne_eq, not_true_eq_false, if_false,
      Bool.not_false, if_true]
    exact ⟨rfl, trivial⟩
  · rintro r header ⟨hm, form, hp, hf⟩ hext
    simp only [convertHandler, hm, hp, hf, hext, ne_eq, not_true_eq_false, if_false,
      Bool.not_true, Bool.false_eq_true]
    cases env.osCreate (filepath.Join [uploadDir, docxFilename header.Filename env.now])
    · simp
    · cases env.ioCopy (filepath.Join [uploadDir, docxFilename header.Filename env.now])
      · simp
      · simp only [convertDocxToPdf]
        cases env.documentOpen (filepath.Join [uploadDir, docxFilename header.Filename env.now])
        · cases env.writeToFile (filepath.Join [outputDir, pdfFilename header.Filename env.now])
          · simp
          · simp
        · simp

theorem C3_extension_check_witness :
    unicode.CaseTableASCII (Env.allOk newYear2024).caseTable ∧
    extensionCheck (Env.allOk newYear2024).caseTable "A.DOCX".toList = true ∧
    (convertHandler (Env.allOk newYear2024) (uploadRequest "a.txt".toList 5)).1.status = 400 ∧
    (convertHandler (Env.allOk newYear2024) (uploadRequest "a.txt".toList 5)).2 = [] :=
  ⟨caseTable_id, (C3_extension_check (Env.allOk newYear2024) caseTable_id).2.1,
    (C3_extension_check (Env.allOk newYear2024) caseTable_id).2.2.2.2.2.2.1
      (uploadRequest "a.txt".toList 5) _ (upload_uploadRequest _ _ (by decide) (by decide)) (by decide)⟩

/-- C4: for an uploaded file name `f` that passes the extension check and an
upload time `t` in the years 0000-9999, the saved upload is named
`base_ts.docx` and the artifact `base_ts.pdf`, where `base` is `f` without its
last five characters and `ts` is the 15-character string `YYYYMMDD_HHMMSS` of
`t`, every field zero-padded; `report.docx` at 2024-01-01 10:00:00 gives the
artifact name `report_20240101_100000.pdf`. -/
theorem C4_generated_names (ct : Char → Char) (h : unicode.CaseTableASCII ct)
    (f : GoString) (t : time.Time) (hf : extensionCheck ct f = true)
    (hy : FourDigitYear t) (hv : t.valid) :
    docxFilename f t =
      f.take (f.length - 5) ++ "_".toList ++ YYYYMMDD_HHMMSS t ++ ".docx".toList ∧
    pdfFilename f t =
      f.take (f.length - 5) ++ "_".toList ++ YYYYMMDD_HHMMSS t ++ ".pdf".toList ∧
    timestamp t = YYYYMMDD_HHMMSS t ∧
    (YYYYMMDD_HHMMSS t).length = 15 ∧
    5 ≤ f.length ∧
    pdfFilename "report.docx".toList newYear2024 = "report_20240101_100000.pdf".toList := by
  have hd := (extensionCheck_iff ct h f).mp hf
  have hb := baseFilename_of_docx f hd
  have hts := timestamp_eq t hy hv
  refine ⟨?_, ?_, hts, ?_, ?_, by decide⟩
  · simp only [docxFilename, hb, hts]
  · simp only [pdfFilename, hb, hts]
  · rw [← hts]
    exact timestamp_length t hy hv
  · obtain ⟨base, c1, c2, c3, c4, rfl, -⟩ := hd
    simp

theorem C4_generated_names_witness :
    docxFilename "Report.DOCX".toList newYear2024 = "Report_20240101_100000.docx".toList ∧
    pdfFilename "Report.DOCX".toList newYear2024 = "Report_20240101_100000.pdf".toList := by
  have h := C4_generated_names (fun c => c) caseTable_id "Report.DOCX".toList newYear2024
    (by decide) (by decide) (by decide)
  exact ⟨h.1.trans (by decide), h.2.1.trans (by decide)⟩

/-- C5, at the failing input: `maxFileSize` is 10485760, and an upload of
exactly that size is accepted; but an upload of 10485761 bytes is accepted as
well: `ParseMultipartForm` takes `maxFileSize` as the amount of file data to
keep in memory and stores the larger file in a temporary file, so the handler
answers 200 after saving the upload and converting it. No size is rejected. -/
theorem C5_oversized_upload_accepted :
    maxFileSize = 10485760 ∧
    (convertHandler (Env.allOk newYear2024)
      (uploadRequest "report.docx".toList 10485760)).1.status = 200 ∧
    ParseMultipartForm (uploadRequest "report.docx".toList 10485761) maxFileSize =
      .ok ⟨[("docx".toList, ⟨"report.docx".toList, 10485761, true⟩)]⟩ ∧
    (convertHandler (Env.allOk newYear2024)
      (uploadRequest "report.docx".toList 10485761)).1.status = 200 ∧
    (convertHandler (Env.allOk newYear2024)
      (uploadRequest "report.docx".toList 10485761)).2 =
      [.osCreate "uploads/report_20240101_100000.docx".toList true,
        .ioCopy "uploads/report_20240101_100000.docx".toList 10485761 true,
        .documentOpen "uploads/report_20240101_100000.docx".toList true,
        .writeToFile "output/report_20240101_100000.pdf".toList true,
        .osRemove "uploads/report_20240101_100000.docx".toList] ∧
    (∀ size, (convertHandler (Env.allOk newYear2024)
      (uploadRequest "report.docx".toList size)).1.status = 200) := by
  refine ⟨by decide, by decide, rfl, by decide, by decide, ?_⟩
  intro size
  obtain ⟨hm, form, hp, hf⟩ := upload_uploadRequest "report.docx".toList size (by decide) (by decide)
  have hext : extensionCheck (Env.allOk newYear2024).caseTable "report.docx".toList = true := by
    decide
  simp only [convertHandler, hm, hp, hf, hext, ne_eq, not_true_eq_false, if_false,
    Bool.not_true, Bool.false_eq_true]
  rfl

/-- C6: for an accepted upload that `convertHandler` has saved (the extension
check passed, `os.Create` and `io.Copy` succeeded): if `convertDocxToPdf`
returns an error `e`, the response has status 500, its body is
`Error converting file: ` followed by `e` and a newline, `e` is the cause
reported by the engine prefixed by `failed to open DOCX file: ` or by
`failed to write PDF file: `, and the saved upload is still present
afterwards; if it returns no error, the response has status 200, its body is
the success page holding `href="/download/<pdfFilename>"`, and the saved
upload is no longer present. -/
theorem C6_conversion_outcome (env : Env) (r : Request) (header : FileHeader)
    (docxPath pdfPath : GoString)
    (hdocx : docxPath = filepath.Join [uploadDir, docxFilename header.Filename env.now])
    (hpdf : pdfPath = filepath.Join [outputDir, pdfFilename header.Filename env.now])
    (hup : Upload r header) (hext : extensionCheck env.caseTable header.Filename = true)
    (hcreate : env.osCreate docxPath = true) (hcopy : env.ioCopy docxPath = true) :
    (∀ e, (convertDocxToPdf env docxPath pdfPath).1 = some e →
      (convertHandler env r).1.status = 500 ∧
      (convertHandler env r).1.body = "Error converting file: ".toList ++ e ++ "\n".toList ∧
      ((∃ cause, env.documentOpen docxPath = some cause ∧
          e = "failed to open DOCX file: ".toList ++ cause) ∨
        (∃ cause, env.writeToFile pdfPath = some cause ∧
          e = "failed to write PDF file: ".toList ++ cause)) ∧
      ∀ fs, docxPath ∈ fsAfter fs (convertHandler env r).2) ∧
    ((convertDocxToPdf env docxPath pdfPath).1 = none →
      (convertHandler env r).1.status = 200 ∧
      (convertHandler env r).1.body =
        successPageHead ++ pdfFilename header.Filename env.now ++ successPageTail ∧
      "href=\"/download/".toList ++ pdfFilename header.Filename env.now ++ "\"".toList <:+:
        (convertHandler env r).1.body ∧
      ∀ fs, docxPath ∉ fsAfter fs (convertHandler env r).2) := by
  obtain ⟨hm, form, hp, hf⟩ := hup
  subst hdocx hpdf
  simp only [convertHandler, hm, hp, hf, hext, hcreate, hcopy, ne_eq, not_true_eq_false,
    if_false, Bool.not_true, Bool.false_eq_true, convertDocxToPdf]
  cases hopen : env.documentOpen
      (filepath.Join [uploadDir, docxFilename header.Filename env.now]) with
  | some cause =>
    refine ⟨?_, fun hnone => by simp at hnone⟩
    intro e he
    simp only [Option.some.injEq] at he
    subst he
    refine ⟨rfl, rfl, Or.inl ⟨cause, rfl, rfl⟩, fun fs => ?_⟩
    simp [fsAfter]
  | none =>
    cases hwrite : env.writeToFile
        (filepath.Join [outputDir, pdfFilename header.Filename env.now]) with
    | some cause =>
      refine ⟨?_, fun hnone => by simp at hnone⟩
      intro e he
      simp only [Option.some.injEq] at he
      subst he
      refine ⟨rfl, rfl, Or.inr ⟨cause, rfl, rfl⟩, fun fs => ?_⟩
      simp [fsAfter]
    | none =>
      refine ⟨fun e he => by simp at he, fun _ => ⟨rfl, rfl, success_link _, fun fs => ?_⟩⟩
      simp [fsAfter]

theorem C6_conversion_outcome_witness :
    (convertHandler { Env.allOk newYear2024 with writeToFile := fun _ => some "disk full".toList }
      (uploadRequest "a.docx".toList 5)).1.status = 500 ∧
    (convertHandler { Env.allOk newYear2024 with writeToFile := fun _ => some "disk full".toList }
      (uploadRequest "a.docx".toList 5)).1.body =
      "Error converting file: failed to write PDF file: disk full\n".toList ∧
    "uploads/a_20240101_100000.docx".toList ∈ fsAfter []
      (convertHandler
        { Env.allOk newYear2024 with writeToFile := fun _ => some "disk full".toList }
        (uploadRequest "a.docx".toList 5)).2 := by
  have h := (C6_conversion_outcome
    { Env.allOk newYear2024 with writeToFile := fun _ => some "disk full".toList }
    (uploadRequest "a.docx".toList 5) _ "uploads/a_20240101_100000.docx".toList
    "output/a_20240101_100000.pdf".toList (by decide) (by decide)
    (upload_uploadRequest "a.docx".toList 5 (by decide) (by decide)) (by decide) rfl rfl).1
    "failed to write PDF file: disk full".toList (by decide)
  exact ⟨h.1, h.2.1.trans (by decide), h.2.2.2 []⟩

set_option maxRecDepth 1000000 in
/-- C7, at the failing input: on a file system that holds no file at all, the
file name of 300 letters `a` passes the validation and no file exists at the
resolved path `output/aaa...`; but `os.Stat` fails with `ENAMETOOLONG`, which
`os.IsNotExist` does not recognise, so the handler does not answer 404: it sets
the `Content-Disposition` attachment header, calls `http.ServeFile`, which
answers 500, and schedules the removal of the path. -/
theorem C7_long_name_is_not_answered_404 :
    strings.TrimPrefix ("/download/".toList ++ longName) "/download/".toList = longName ∧
    longName ≠ [] ∧ ¬ "..".toList <:+: longName ∧ '/' ∉ longName ∧
    filepath.Join [outputDir, longName] = "output/".toList ++ longName ∧
    "output/".toList ++ longName ∉ ([] : List GoString) ∧
    statOn [] ("output/".toList ++ longName) = .otherError ∧
    (downloadHandler (Env.onFiles newYear2024 [])
      (getRequest ("/download/".toList ++ longName))).1.status = 500 ∧
    ("Content-Disposition".toList, "attachment; filename=".toList ++ longName) ∈
      (downloadHandler (Env.onFiles newYear2024 [])
        (getRequest ("/download/".toList ++ longName))).1.header ∧
    (downloadHandler (Env.onFiles newYear2024 [])
      (getRequest ("/download/".toList ++ longName))).2 =
      [.osStat ("output/".toList ++ longName), .serveFile ("output/".toList ++ longName),
        .scheduleRemove 5 ("output/".toList ++ longName)] := by
  refine ⟨by decide, by decide, ?_, by decide, by decide, by simp, by decide, by decide,
    by decide, by decide⟩
  rw [← Contains_iff]
  decide

/-- C8: for two accepted uploads (file names `f1`, `f2` passing the extension
check, times `t1`, `t2` in the years 0000-9999) the generated artifact names
are equal exactly when `f1` and `f2` have the same base (the name without its
last five characters) and `t1`, `t2` format to the same timestamp, and so are
the generated upload names; the timestamps are equal exactly when the two
times lie in the same calendar second, whatever their nanoseconds. -/
theorem C8_names_collide_iff (ct : Char → Char) (h : unicode.CaseTableASCII ct)
    (f1 f2 : GoString) (t1 t2 : time.Time)
    (hf1 : extensionCheck ct f1 = true) (hf2 : extensionCheck ct f2 = true)
    (hy1 : FourDigitYear t1) (hv1 : t1.valid) (hy2 : FourDigitYear t2) (hv2 : t2.valid) :
    (pdfFilename f1 t1 = pdfFilename f2 t2 ↔
      f1.take (f1.length - 5) = f2.take (f2.length - 5) ∧ timestamp t1 = timestamp t2) ∧
    (docxFilename f1 t1 = docxFilename f2 t2 ↔
      f1.take (f1.length - 5) = f2.take (f2.length - 5) ∧ timestamp t1 = timestamp t2) ∧
    (timestamp t1 = timestamp t2 ↔ SameSecond t1 t2) := by
  have hb1 := baseFilename_of_docx f1 ((extensionCheck_iff ct h f1).mp hf1)
  have hb2 := baseFilename_of_docx f2 ((extensionCheck_iff ct h f2).mp hf2)
  have hlen : (timestamp t1).length = (timestamp t2).length := by
    rw [timestamp_length t1 hy1 hv1, timestamp_length t2 hy2 hv2]
  refine ⟨?_, ?_, timestamp_inj t1 t2 hy1 hv1 hy2 hv2⟩
  · rw [← hb1, ← hb2]
    exact names_eq_iff f1 f2 t1 t2 _ hlen
  · rw [← hb1, ← hb2]
    exact names_eq_iff f1 f2 t1 t2 _ hlen

theorem C8_names_collide_iff_witness :
    pdfFilename "a.docx".toList newYear2024 =
      pdfFilename "a.DOCX".toList { newYear2024 with nanosecond := 999999999 } ∧
    docxFilename "a.docx".toList newYear2024 ≠
      docxFilename "a.docx".toList { newYear2024 with second := 1 } := by
  have h1 := C8_names_collide_iff (fun c => c) caseTable_id "a.docx".toList "a.DOCX".toList
    newYear2024 { newYear2024 with nanosecond := 999999999 }
    (by decide) (by decide) (by decide) (by decide) (by decide) (by decide)
  have h2 := C8_names_collide_iff (fun c => c) caseTable_id "a.docx".toList "a.docx".toList
    newYear2024 { newYear2024 with second := 1 }
    (by decide) (by decide) (by decide) (by decide) (by decide) (by decide)
  refine ⟨h1.1.mpr ⟨by decide, h1.2.2.mpr (by decide)⟩, ?_⟩
  intro e
  have := h2.2.2.mp (h2.2.1.mp e).2
  revert this
  decide

/-- C9, at the failing input: the uploaded name `a..b.docx` passes the
extension check and holds no `/`; the success page links to
`/download/a..b_20240101_100000.pdf`; and `downloadHandler` answers a request
for that very path with status 400, without looking at the file system,
because the generated name contains `..`. -/
theorem C9_generated_link_rejected :
    extensionCheck (Env.allOk newYear2024).caseTable "a..b.docx".toList = true ∧
    '/' ∉ "a..b.docx".toList ∧
    pdfFilename "a..b.docx".toList newYear2024 = "a..b_20240101_100000.pdf".toList ∧
    (convertHandler (Env.allOk newYear2024) (uploadRequest "a..b.docx".toList 5)).1.body =
      successPageHead ++ "a..b_20240101_100000.pdf".toList ++ successPageTail ∧
    (downloadHandler (Env.allOk newYear2024)
      (getRequest ("/download/".toList ++ pdfFilename "a..b.docx".toList newYear2024))).1.status
      = 400 ∧
    (downloadHandler (Env.allOk newYear2024)
      (getRequest ("/download/".toList ++ pdfFilename "a..b.docx".toList newYear2024))).2
      = [] := by
  refine ⟨by decide, by decide, by decide, rfl, by decide, by decide⟩


/-- C10: for every uploaded file name without `/` and every upload time, the
upload is saved at `uploads/` followed by the generated upload name and the
converter writes to `output/` followed by the generated artifact name; both
generated names are single path elements other than `.` and `..`, so neither
path is the directory itself, its parent or any other place. The extension
check is not needed for this. -/
theorem C10_paths_inside_directories (f : GoString) (t : time.Time) (hsep : '/' ∉ f) :
    filepath.Join [uploadDir, docxFilename f t] = "uploads/".toList ++ docxFilename f t ∧
    filepath.Join [outputDir, pdfFilename f t] = "output/".toList ++ pdfFilename f t ∧
    IsFileName (docxFilename f t) ∧ IsFileName (pdfFilename f t) := by
  have h1 : IsFileName (docxFilename f t) := generated_isFileName f t _ hsep (by decide)
  have h2 : IsFileName (pdfFilename f t) := generated_isFileName f t _ hsep (by decide)
  exact ⟨Join_uploadDir _ h1, Join_outputDir _ h2, h1, h2⟩

theorem C10_paths_inside_directories_witness :
    '/' ∉ "..docx".toList ∧
    filepath.Join [uploadDir, docxFilename "..docx".toList newYear2024] =
      "uploads/._20240101_100000.docx".toList ∧
    filepath.Join [outputDir, pdfFilename "..docx".toList newYear2024] =
      "output/._20240101_100000.pdf".toList := by
  have h := C10_paths_inside_directories "..docx".toList newYear2024 (by decide)
  exact ⟨by decide, h.1.trans (by decide), h.2.1.trans (by decide)⟩

end DocxPdf
